import Mathlib

/-!
Verification development for the name-binding pass of `lib/Sema/NameBinding.cpp`.

The pass receives a parsed translation unit (an ordered list of top-level
declarations), builds a symbol table of the unit's own named top-level values,
loads and indexes the modules named by import declarations, and rewrites every
`UnresolvedDeclRefExpr` inside initializer expressions into a `DeclRefExpr`
(or a null result plus an error diagnostic when the name cannot be resolved).

The embedding is a direct state-passing translation of the C++ code:
  * `llvm::DenseMap<Identifier, ValueDecl*>` maps become association lists
    where a later insertion shadows earlier ones (observable behavior of
    `map[key] = value` followed by `map.find`);
  * `ValueDecl*` identity becomes an index: `VDRef.unitDecl i` is the i-th
    declaration of the unit being bound, `VDRef.imported k j` the j-th
    declaration of the module held by the k-th entry of the import list
    (each import owns its own separately parsed module, so this is faithful
    to pointer identity);
  * the file system and the parser collaborator are an environment
    `ModuleEnv` mapping a file name to the outcome of reading + parsing it;
  * diagnostics printed through `SourceMgr.PrintMessage` and the context's
    `setHadError` flag become explicit fields of the binder state.
-/

set_option autoImplicit false

namespace NameBinding

/-- Identifiers are interned strings in the C++ code; their observable content
is the string, so we use `String` directly. -/
abbrev Identifier := String

/-- Source locations (`llvm::SMLoc`) are opaque to the pass; a `Nat` tag keeps
them distinguishable. -/
abbrev SMLoc := Nat

/-- Identity of a `ValueDecl*`: either a top-level declaration of the unit
being bound (by its index in the declaration list) or a top-level declaration
of an imported module (import-list position, then index inside that module's
own declaration list). -/
inductive VDRef where
  | unitDecl (idx : Nat)
  | imported (importIdx : Nat) (declIdx : Nat)
  deriving DecidableEq

/-- Expressions, after parsing.  `unresolved` is `UnresolvedDeclRefExpr`,
`declRef` is `DeclRefExpr`, `hole` models a null `Expr*` left in the tree when
binding fails, and `node` stands for every other expression kind (the binder
treats all of them uniformly: it only walks into their children). -/
inductive Expr where
  | unresolved (name : Identifier) (loc : SMLoc)
  | declRef (d : VDRef) (loc : SMLoc)
  | hole
  | node (kind : Nat) (children : List Expr)

mutual
/-- Boolean equality on expressions (the nested `List Expr` blocks the derived
instance, so it is written out). -/
def Expr.beq : Expr → Expr → Bool
  | Expr.unresolved n l, Expr.unresolved n' l' => n == n' && l == l'
  | Expr.declRef d l, Expr.declRef d' l' => d == d' && l == l'
  | Expr.hole, Expr.hole => true
  | Expr.node k cs, Expr.node k' cs' => k == k' && Expr.beqs cs cs'
  | _, _ => false

/-- Boolean equality on lists of expressions. -/
def Expr.beqs : List Expr → List Expr → Bool
  | [], [] => true
  | a :: as, c :: cs => Expr.beq a c && Expr.beqs as cs
  | _, _ => false
end

mutual
def Expr.beq_iff : ∀ a c : Expr, Expr.beq a c = true ↔ a = c
  | Expr.unresolved n l, Expr.unresolved n' l' => by
      simp [Expr.beq]
  | Expr.declRef d l, Expr.declRef d' l' => by
      simp [Expr.beq]
  | Expr.hole, Expr.hole => by simp [Expr.beq]
  | Expr.node k cs, Expr.node k' cs' => by
      simp [Expr.beq, Expr.beqs_iff cs cs']
  | Expr.unresolved n l, Expr.declRef d' l' => by simp [Expr.beq]
  | Expr.unresolved n l, Expr.hole => by simp [Expr.beq]
  | Expr.unresolved n l, Expr.node k' cs' => by simp [Expr.beq]
  | Expr.declRef d l, Expr.unresolved n' l' => by simp [Expr.beq]
  | Expr.declRef d l, Expr.hole => by simp [Expr.beq]
  | Expr.declRef d l, Expr.node k' cs' => by simp [Expr.beq]
  | Expr.hole, Expr.unresolved n' l' => by simp [Expr.beq]
  | Expr.hole, Expr.declRef d' l' => by simp [Expr.beq]
  | Expr.hole, Expr.node k' cs' => by simp [Expr.beq]
  | Expr.node k cs, Expr.unresolved n' l' => by simp [Expr.beq]
  | Expr.node k cs, Expr.declRef d' l' => by simp [Expr.beq]
  | Expr.node k cs, Expr.hole => by simp [Expr.beq]

def Expr.beqs_iff : ∀ as cs : List Expr, Expr.beqs as cs = true ↔ as = cs
  | [], [] => by simp [Expr.beqs]
  | [], c :: cs => by simp [Expr.beqs]
  | a :: as, [] => by simp [Expr.beqs]
  | a :: as, c :: cs => by
      simp [Expr.beqs, Expr.beq_iff a c, Expr.beqs_iff as cs]
end

instance : DecidableEq Expr := fun a c => decidable_of_iff _ (Expr.beq_iff a c)

/-- Top-level declarations of a translation unit: `value` is `ValueDecl`
(a possibly anonymous name plus an optional initializer), `imp` is
`ImportDecl` (module name plus the import statement's location), `other`
stands for any declaration that is neither. -/
inductive Decl where
  | value (name : Identifier) (init : Option Expr)
  | imp (moduleName : Identifier) (importLoc : SMLoc)
  | other
  deriving DecidableEq

/-- A translation unit is its ordered list of top-level declarations
(`TranslationUnitDecl::Decls`). -/
abbrev TranslationUnit := List Decl

/-- Observable content of a `llvm::DenseMap<Identifier, T>`: an association
list where `insertMap` shadows any earlier binding of the same key. -/
abbrev SymMap (T : Type) := List (Identifier × T)

/-- Insertion `map[key] = value`: the new binding shadows earlier ones. -/
def insertMap {T : Type} (m : SymMap T) (k : Identifier) (v : T) : SymMap T :=
  (k, v) :: m

/-- Lookup `map.find(key)`: the most recent insertion of the key wins. -/
def lookupMap {T : Type} (m : SymMap T) (k : Identifier) : Option T :=
  match m with
  | [] => none
  | (k', v) :: rest => if k' = k then some v else lookupMap rest k

/-- Diagnostic severities understood by `SourceMgr.PrintMessage`. -/
inductive Severity where
  | note
  | warning
  | error
  deriving DecidableEq

/-- One emitted diagnostic: location, message text, severity. -/
structure Diagnostic where
  loc : SMLoc
  message : String
  severity : Severity
  deriving DecidableEq

/-- Outcome of `llvm::MemoryBuffer::getFile` followed by
`Parser(...).parseTranslationUnit()` on one file name: an I/O error with its
message, a parse that returned a null unit, or a parsed unit. -/
inductive ParseOutcome where
  | ioError (msg : String)
  | parseFail
  | ok (tud : TranslationUnit)
  deriving DecidableEq

/-- The file system plus parser collaborator, keyed by file name. -/
abbrev ModuleEnv := String → ParseOutcome

/-- `ReferencedModule`: one imported module.  `tud` is the wrapped translation
unit, `topLevelValues` the lazily built name-to-declaration cache (declaration
identity is the index inside `tud`). -/
structure ReferencedModule where
  tud : TranslationUnit
  topLevelValues : SymMap Nat
  deriving DecidableEq

/-- The map-building loop inside `ReferencedModule::lookupValue`: iterate the
wrapped unit's declarations once, inserting every `ValueDecl` whose name is
non-empty (later duplicates shadow earlier ones). -/
def buildModuleIndexAux : TranslationUnit → Nat → SymMap Nat → SymMap Nat
  | [], _, m => m
  | d :: rest, i, m =>
    let m' := match d with
      | Decl.value name _ => if name ≠ "" then insertMap m name i else m
      | _ => m
    buildModuleIndexAux rest (i + 1) m'

/-- The full index of a module's top-level named values. -/
def buildModuleIndex (tud : TranslationUnit) : SymMap Nat :=
  buildModuleIndexAux tud 0 []

/-- `ReferencedModule::lookupValue`: if the cache is empty, build it from the
wrapped unit's declarations; then return `find(Name)`.  The second component is
the module's state after the call (the C++ method mutates the cache in place).
The `ImportDecl` argument of the C++ signature is unused there and omitted. -/
def ReferencedModule.lookupValue (rm : ReferencedModule) (name : Identifier) :
    Option Nat × ReferencedModule :=
  let rm' := if rm.topLevelValues.isEmpty then
      { rm with topLevelValues := buildModuleIndex rm.tud }
    else rm
  (lookupMap rm'.topLevelValues name, rm')

/-- One entry of `NameBinder::Imports`: the import declaration's data paired
with the module it resolved to. -/
structure ImportEntry where
  moduleName : Identifier
  importLoc : SMLoc
  rm : ReferencedModule
  deriving DecidableEq

/-- `NameBinder` state.  `loadedModules` counts `LoadedModules.push_back`
calls (the C++ vector is only read by the destructor, so its observable
content is how many modules were loaded).  `diags` and `hadError` model the
context's diagnostic stream and `ASTContext::setHadError` flag. -/
structure NameBinder where
  topLevelValues : SymMap Nat
  imports : List ImportEntry
  loadedModules : Nat
  diags : List Diagnostic
  hadError : Bool
  deriving DecidableEq

/-- The binder as freshly constructed by `performNameBinding` (paired with a
context that has emitted no diagnostics yet). -/
def NameBinder.init : NameBinder :=
  { topLevelValues := [], imports := [], loadedModules := 0
    diags := [], hadError := false }

/-- `NameBinder::note`: print a note-severity message. -/
def NameBinder.note (b : NameBinder) (l : SMLoc) (msg : String) : NameBinder :=
  { b with diags := b.diags ++ [⟨l, msg, Severity.note⟩] }

/-- `NameBinder::warning`: print a warning-severity message. -/
def NameBinder.warning (b : NameBinder) (l : SMLoc) (msg : String) : NameBinder :=
  { b with diags := b.diags ++ [⟨l, msg, Severity.warning⟩] }

/-- `NameBinder::error`: set the context's had-error flag, then print an
error-severity message. -/
def NameBinder.error (b : NameBinder) (l : SMLoc) (msg : String) : NameBinder :=
  { b with hadError := true, diags := b.diags ++ [⟨l, msg, Severity.error⟩] }

/-- `NameBinder::addNamedTopLevelDecl`: `TopLevelValues[VD->Name] = VD`,
unconditionally (its sole caller checks the name first).  `i` is the
declaration's index in the unit. -/
def NameBinder.addNamedTopLevelDecl (b : NameBinder) (name : Identifier) (i : Nat) :
    NameBinder :=
  { b with topLevelValues := insertMap b.topLevelValues name i }

/-- `NameBinder::getReferencedModule`: derive the file name as the module
identifier plus ".swift"; on read failure emit one error diagnostic carrying
the failure reason and return null; if the parser returns no unit, return null
(the parser emitted its own diagnostics); otherwise wrap the parsed unit in a
fresh `ReferencedModule` (empty cache) and record it in `LoadedModules`. -/
def NameBinder.getReferencedModule (b : NameBinder) (l : SMLoc)
    (moduleID : Identifier) (env : ModuleEnv) :
    Option ReferencedModule × NameBinder :=
  let inputFilename := moduleID ++ ".swift"
  match env inputFilename with
  | ParseOutcome.ioError msg =>
      (none,
       b.error l ("opening import file \x27" ++ inputFilename ++ "\x27: " ++ msg))
  | ParseOutcome.parseFail => (none, b)
  | ParseOutcome.ok tud =>
      (some { tud := tud, topLevelValues := [] },
       { b with loadedModules := b.loadedModules + 1 })

/-- `NameBinder::addImport`: load the module; on success append the pair to
the ordered import list, on failure do nothing further. -/
def NameBinder.addImport (b : NameBinder) (moduleID : Identifier) (l : SMLoc)
    (env : ModuleEnv) : NameBinder :=
  match b.getReferencedModule l moduleID env with
  | (some rm, b') =>
      { b' with imports := b'.imports ++ [⟨moduleID, l, rm⟩] }
  | (none, b') => b'

/-- The import-scanning loop of `NameBinder::bindValueName`: query each of
the imports' modules front-to-back, stopping at the first hit.  `k` is the
position of the head of `imps` inside the full import list.  Returns the
resolved declaration (if any) and the import list with whatever caches the
scan forced. -/
def scanImports : List ImportEntry → Identifier → Nat →
    Option VDRef × List ImportEntry
  | [], _, _ => (none, [])
  | entry :: rest, name, k =>
    let r := entry.rm.lookupValue name
    let entry' : ImportEntry := { entry with rm := r.2 }
    match r.1 with
    | some j => (some (VDRef.imported k j), entry' :: rest)
    | none =>
      let r' := scanImports rest name (k + 1)
      (r'.1, entry' :: r'.2)

/-- `NameBinder::bindValueName`: resolve a value name.  Local symbol table
first; otherwise the imports in order, first match wins; otherwise emit the
unresolved-identifier error and return null. -/
def NameBinder.bindValueName (b : NameBinder) (name : Identifier) (l : SMLoc) :
    Option Expr × NameBinder :=
  match lookupMap b.topLevelValues name with
  | some i => (some (Expr.declRef (VDRef.unitDecl i) l), b)
  | none =>
    let s := scanImports b.imports name 0
    let b' := { b with imports := s.2 }
    match s.1 with
    | some d => (some (Expr.declRef d l), b')
    | none =>
      (none,
       b'.error l ("use of unresolved identifier \x27" ++ name ++ "\x27"))

mutual
/-- Modelled from the spec: `Expr::WalkExpr` with the `BindNames` callback is
not part of this source file; the spec describes it as a post-order rewrite
(children before parents) in which every `UnresolvedDeclRefExpr` is replaced
by `bindValueName`'s result, every other node is passed through unchanged, and
a failed resolution leaves a null at that tree position while the walk
continues.  `walkBindExpr` returns the (possibly null) replacement for the
whole tree; inside a parent, a null child is kept as `Expr.hole`. -/
def walkBindExpr : Expr → NameBinder → Option Expr × NameBinder
  | Expr.unresolved name l, b => b.bindValueName name l
  | Expr.declRef d l, b => (some (Expr.declRef d l), b)
  | Expr.hole, b => (some Expr.hole, b)
  | Expr.node k cs, b =>
    let r := walkBindExprs cs b
    (some (Expr.node k r.1), r.2)

/-- Modelled from the spec: the walk over a node's children, left to right,
threading the binder state. -/
def walkBindExprs : List Expr → NameBinder → List Expr × NameBinder
  | [], b => ([], b)
  | e :: rest, b =>
    let r := walkBindExpr e b
    let r' := walkBindExprs rest r.2
    ((r.1.getD Expr.hole) :: r'.1, r'.2)
end

/-- The prepass loop of `performNameBinding`: over each declaration in order,
register it in the local symbol table when it is a `ValueDecl` with a
non-empty name, and load it when it is an `ImportDecl`.  `i` is the index of
the head of the list inside the full unit. -/
def prepassAux (env : ModuleEnv) : TranslationUnit → Nat → NameBinder → NameBinder
  | [], _, b => b
  | d :: rest, i, b =>
    let b₁ := match d with
      | Decl.value name _ =>
          if name ≠ "" then b.addNamedTopLevelDecl name i else b
      | _ => b
    let b₂ := match d with
      | Decl.imp m l => b₁.addImport m l env
      | _ => b₁
    prepassAux env rest (i + 1) b₂

/-- The whole prepass, started from a fresh binder. -/
def prepass (tud : TranslationUnit) (env : ModuleEnv) : NameBinder :=
  prepassAux env tud 0 NameBinder.init

/-- The second loop of `performNameBinding`: for each `ValueDecl` with an
initializer, rewrite the initializer with `walkBindExpr` and store the result
back; every other declaration is left untouched. -/
def rewritePass : TranslationUnit → NameBinder → TranslationUnit × NameBinder
  | [], b => ([], b)
  | Decl.value name (some e) :: rest, b =>
    let r := walkBindExpr e b
    let r' := rewritePass rest r.2
    (Decl.value name r.1 :: r'.1, r'.2)
  | d :: rest, b =>
    let r := rewritePass rest b
    (d :: r.1, r.2)

/-- `performNameBinding`: construct a binder, run the prepass over all
top-level declarations, then rewrite every initializer.  Returns the mutated
unit and the final binder state (whose `diags`/`hadError` are the observable
effects on the compilation context). -/
def performNameBinding (tud : TranslationUnit) (env : ModuleEnv) :
    TranslationUnit × NameBinder :=
  rewritePass tud (prepass tud env)

/-!
Specification-side characterization functions, used to state the claims.
Each one is a pure reading of a stateful source operation; the lemmas below
prove it agrees with the state-passing translation.
-/

/-- Pure reading of `ReferencedModule::lookupValue`: what a lookup answers,
independent of whether the cache has been forced yet. -/
def moduleLookup (rm : ReferencedModule) (name : Identifier) : Option Nat :=
  lookupMap
    (if rm.topLevelValues.isEmpty then buildModuleIndex rm.tud
     else rm.topLevelValues)
    name

/-- Index of the last top-level value declaration carrying the (non-empty)
name `n`, the declaration that shadowing makes visible. -/
def lastNamedIndex : TranslationUnit → Identifier → Option Nat
  | [], _ => none
  | d :: rest, n =>
    match lastNamedIndex rest n with
    | some j => some (j + 1)
    | none =>
      match d with
      | Decl.value m _ => if m = n ∧ n ≠ "" then some 0 else none
      | _ => none

/-- The declaration produced by scanning the import list front-to-back for
`name`, taking the first module whose index lookup is non-empty; `k` is the
position of the head of the list in the full import list. -/
def firstImportHit : List ImportEntry → Identifier → Nat → Option VDRef
  | [], _, _ => none
  | e :: rest, name, k =>
    match moduleLookup e.rm name with
    | some j => some (VDRef.imported k j)
    | none => firstImportHit rest name (k + 1)

mutual
/-- Whether an expression still contains an `UnresolvedDeclRefExpr`. -/
def Expr.hasUnresolved : Expr → Bool
  | Expr.unresolved _ _ => true
  | Expr.declRef _ _ => false
  | Expr.hole => false
  | Expr.node _ cs => Expr.hasUnresolvedList cs

/-- Whether any expression of a list contains an `UnresolvedDeclRefExpr`. -/
def Expr.hasUnresolvedList : List Expr → Bool
  | [] => false
  | e :: rest => Expr.hasUnresolved e || Expr.hasUnresolvedList rest
end

/-- All keys of a symbol map are non-empty identifiers. -/
def keysNonEmpty {T : Type} (m : SymMap T) : Prop :=
  ∀ p ∈ m, p.1 ≠ ""

/-- The binder invariant tracked across the pass: every key of the local
symbol table and of every import's cache is a non-empty identifier. -/
def binderTablesWF (b : NameBinder) : Prop :=
  keysNonEmpty b.topLevelValues ∧
  ∀ e ∈ b.imports, keysNonEmpty e.rm.topLevelValues

/-- A concrete environment in which no file exists; used by closed instances
of the theorems. -/
def envNone : ModuleEnv := fun _ => ParseOutcome.ioError "no such file"

/-!
Concrete fixtures, used only to instantiate the theorems below at closed
inputs.
-/

/-- A module defining one value, `helper`. -/
def modLib : TranslationUnit := [Decl.value "helper" none]

/-- A module defining one value, `x` (and in particular no `helper`). -/
def modX : TranslationUnit := [Decl.value "x" none]

/-- An import-list entry for `modLib`, cache not yet built. -/
def entryLib : ImportEntry := ⟨"Lib", 3, ⟨modLib, []⟩⟩

/-- An import-list entry for `modX`, cache not yet built. -/
def entryX : ImportEntry := ⟨"X", 2, ⟨modX, []⟩⟩

/-- A binder whose local symbol table binds `x` to unit declaration 0. -/
def binderLocal : NameBinder :=
  { topLevelValues := [("x", 0)], imports := [], loadedModules := 0
    diags := [], hadError := false }

/-- A binder with an empty local table and two imports, only the second of
which provides `helper`. -/
def binderImports : NameBinder :=
  { topLevelValues := [], imports := [entryX, entryLib], loadedModules := 2
    diags := [], hadError := false }

end NameBinding

/-!
Helper lemmas.  They relate the state-passing translation to the pure
characterization functions above and record which parts of the binder state
each operation leaves untouched.
-/

namespace NameBinding

theorem lookupMap_insert_self {T : Type} (m : SymMap T) (k : Identifier) (v : T) :
    lookupMap (insertMap m k v) k = some v := by
  simp [insertMap, lookupMap]

theorem lookupMap_insert_ne {T : Type} (m : SymMap T) (k k' : Identifier) (v : T)
    (h : k ≠ k') : lookupMap (insertMap m k v) k' = lookupMap m k' := by
  simp [insertMap, lookupMap, h]

theorem lookupMap_buildModuleIndexAux (n : Identifier) :
    ∀ (tud : TranslationUnit) (i : Nat) (m : SymMap Nat),
    lookupMap (buildModuleIndexAux tud i m) n =
      match lastNamedIndex tud n with
      | some j => some (i + j)
      | none => lookupMap m n := by
  intro tud
  induction tud with
  | nil => intro i m; simp [buildModuleIndexAux, lastNamedIndex]
  | cons d rest ih =>
    intro i m
    cases d with
    | value name init =>
      cases hA : lastNamedIndex rest n with
      | some j =>
        by_cases hn : name = ""
        · subst hn
          simp [buildModuleIndexAux, lastNamedIndex, hA, ih]
          omega
        · simp [buildModuleIndexAux, lastNamedIndex, hn, hA, ih]
          omega
      | none =>
        by_cases hn : name = ""
        · subst hn
          have hcond : ¬("" = n ∧ n ≠ "") := by
            rintro ⟨rfl, hne⟩; exact hne rfl
          simp [buildModuleIndexAux, lastNamedIndex, hA, ih, hcond]
        · by_cases heq : name = n
          · subst heq
            have hcond : name = name ∧ name ≠ "" := ⟨rfl, hn⟩
            simp [buildModuleIndexAux, lastNamedIndex, hn, hA, ih, hcond,
                  lookupMap_insert_self]
          · have hcond : ¬(name = n ∧ n ≠ "") := by
              rintro ⟨rfl, _⟩; exact heq rfl
            simp [buildModuleIndexAux, lastNamedIndex, hn, hA, ih, hcond,
                  lookupMap_insert_ne _ _ _ _ heq]
    | imp mn ml =>
      cases hA : lastNamedIndex rest n with
      | some j => simp [buildModuleIndexAux, lastNamedIndex, hA, ih]; omega
      | none => simp [buildModuleIndexAux, lastNamedIndex, hA, ih]
    | other =>
      cases hA : lastNamedIndex rest n with
      | some j => simp [buildModuleIndexAux, lastNamedIndex, hA, ih]; omega
      | none => simp [buildModuleIndexAux, lastNamedIndex, hA, ih]

theorem lookupMap_buildModuleIndex (tud : TranslationUnit) (n : Identifier) :
    lookupMap (buildModuleIndex tud) n =
      match lastNamedIndex tud n with
      | some j => some j
      | none => none := by
  have h := lookupMap_buildModuleIndexAux n tud 0 []
  cases hA : lastNamedIndex tud n <;>
    simpa [buildModuleIndex, hA, lookupMap] using h

theorem addImport_topLevelValues (b : NameBinder) (mid : Identifier) (l : SMLoc)
    (env : ModuleEnv) :
    (b.addImport mid l env).topLevelValues = b.topLevelValues := by
  cases h : env (mid ++ ".swift") <;>
    simp [NameBinder.addImport, NameBinder.getReferencedModule, NameBinder.error, h]

theorem bindValueName_topLevelValues (b : NameBinder) (n : Identifier) (l : SMLoc) :
    ((b.bindValueName n l).2).topLevelValues = b.topLevelValues := by
  cases hl : lookupMap b.topLevelValues n with
  | some i => simp [NameBinder.bindValueName, hl]
  | none =>
    cases hs : (scanImports b.imports n 0).1 with
    | some d => simp [NameBinder.bindValueName, hl, hs]
    | none => simp [NameBinder.bindValueName, hl, hs, NameBinder.error]

end NameBinding

namespace NameBinding

mutual
theorem walkBindExpr_topLevelValues :
    ∀ (e : Expr) (b : NameBinder),
    ((walkBindExpr e b).2).topLevelValues = b.topLevelValues
  | Expr.unresolved n l, b => bindValueName_topLevelValues b n l
  | Expr.declRef _ _, _ => rfl
  | Expr.hole, _ => rfl
  | Expr.node _ cs, b => walkBindExprs_topLevelValues cs b

theorem walkBindExprs_topLevelValues :
    ∀ (es : List Expr) (b : NameBinder),
    ((walkBindExprs es b).2).topLevelValues = b.topLevelValues
  | [], _ => rfl
  | e :: rest, b =>
    (walkBindExprs_topLevelValues rest ((walkBindExpr e b).2)).trans
      (walkBindExpr_topLevelValues e b)
end

theorem rewritePass_topLevelValues (tud : TranslationUnit) :
    ∀ b : NameBinder,
    ((rewritePass tud b).2).topLevelValues = b.topLevelValues := by
  induction tud with
  | nil => intro b; rfl
  | cons d rest ih =>
    intro b
    cases d with
    | value name init =>
      cases init with
      | none => simpa [rewritePass] using ih b
      | some e =>
        simp only [rewritePass]
        exact (ih _).trans (walkBindExpr_topLevelValues e b)
    | imp mn ml => simpa [rewritePass] using ih b
    | other => simpa [rewritePass] using ih b

theorem prepassAux_topLevelValues (env : ModuleEnv) :
    ∀ (tud : TranslationUnit) (i : Nat) (b : NameBinder),
    (prepassAux env tud i b).topLevelValues =
      buildModuleIndexAux tud i b.topLevelValues := by
  intro tud
  induction tud with
  | nil => intro i b; rfl
  | cons d rest ih =>
    intro i b
    cases d with
    | value name init =>
      by_cases hn : name = ""
      · subst hn; simp [prepassAux, buildModuleIndexAux, ih]
      · simp [prepassAux, buildModuleIndexAux, hn, ih,
              NameBinder.addNamedTopLevelDecl]
    | imp mn ml =>
      simp [prepassAux, buildModuleIndexAux, ih, addImport_topLevelValues]
    | other => simp [prepassAux, buildModuleIndexAux, ih]

theorem lastNamedIndex_spec :
    ∀ (tud : TranslationUnit) (n : Identifier) (j : Nat),
    lastNamedIndex tud n = some j →
      n ≠ "" ∧ ∃ d, tud.get? j = some (Decl.value n d) := by
  intro tud
  induction tud with
  | nil => intro n j h; simp [lastNamedIndex] at h
  | cons d rest ih =>
    intro n j h
    cases hA : lastNamedIndex rest n with
    | some j' =>
      cases d <;> simp [lastNamedIndex, hA] at h <;>
      · subst h
        obtain ⟨hn, d', hd'⟩ := ih n j' hA
        exact ⟨hn, d', by simpa using hd'⟩
    | none =>
      cases d with
      | value m init =>
        by_cases hc : m = n ∧ n ≠ ""
        · simp only [lastNamedIndex, hA, if_pos hc] at h
          obtain rfl : 0 = j := by simpa using h
          exact ⟨hc.2, init, by simp [hc.1]⟩
        · simp only [lastNamedIndex, hA, if_neg hc] at h; cases h
      | imp mn ml => simp [lastNamedIndex, hA] at h
      | other => simp [lastNamedIndex, hA] at h

theorem lastNamedIndex_of_last :
    ∀ (tud : TranslationUnit) (n : Identifier) (i : Nat) (d : Option Expr),
    tud.get? i = some (Decl.value n d) → n ≠ "" →
    (∀ j d', i < j → tud.get? j ≠ some (Decl.value n d')) →
    lastNamedIndex tud n = some i := by
  intro tud
  induction tud with
  | nil => intro n i d h _ _; simp at h
  | cons d0 rest ih =>
    intro n i d hi hn hlast
    cases i with
    | zero =>
      obtain rfl : d0 = Decl.value n d := by simpa using hi
      have hrest : lastNamedIndex rest n = none := by
        cases hA : lastNamedIndex rest n with
        | none => rfl
        | some j =>
          obtain ⟨_, d', hd'⟩ := lastNamedIndex_spec rest n j hA
          exact absurd (by simpa using hd')
            (hlast (j + 1) d' (Nat.succ_pos j))
      simp [lastNamedIndex, hrest, hn]
    | succ i' =>
      have hi' : rest.get? i' = some (Decl.value n d) := by simpa using hi
      have hlast' : ∀ j d', i' < j → rest.get? j ≠ some (Decl.value n d') := by
        intro j d' hj hcontra
        exact hlast (j + 1) d' (by omega) (by simpa using hcontra)
      have hR := ih n i' d hi' hn hlast'
      cases d0 <;> simp [lastNamedIndex, hR]

end NameBinding

namespace NameBinding

theorem lookupValue_fst (rm : ReferencedModule) (n : Identifier) :
    (rm.lookupValue n).1 = moduleLookup rm n := by
  by_cases h : rm.topLevelValues.isEmpty <;>
    simp [ReferencedModule.lookupValue, moduleLookup, h]

theorem lookupValue_snd (rm : ReferencedModule) (n : Identifier) :
    (rm.lookupValue n).2 =
      if rm.topLevelValues.isEmpty then
        { rm with topLevelValues := buildModuleIndex rm.tud }
      else rm := by
  by_cases h : rm.topLevelValues.isEmpty <;>
    simp [ReferencedModule.lookupValue, h]

theorem lookupValue_snd_tud (rm : ReferencedModule) (n : Identifier) :
    ((rm.lookupValue n).2).tud = rm.tud := by
  rw [lookupValue_snd]
  by_cases h : rm.topLevelValues.isEmpty <;> simp [h]

theorem moduleLookup_lookupValue_snd (rm : ReferencedModule) (n n' : Identifier) :
    moduleLookup ((rm.lookupValue n).2) n' = moduleLookup rm n' := by
  rw [lookupValue_snd]
  by_cases h : rm.topLevelValues.isEmpty
  · simp only [if_pos h, moduleLookup, h]
    by_cases h2 : (buildModuleIndex rm.tud).isEmpty <;> simp [h2]
  · simp [if_neg h, moduleLookup, h]

theorem lookupValue_snd_idem (rm : ReferencedModule) (n n' : Identifier) :
    (((rm.lookupValue n).2).lookupValue n').2 = (rm.lookupValue n).2 := by
  rw [lookupValue_snd, lookupValue_snd]
  by_cases h : rm.topLevelValues.isEmpty
  · simp only [if_pos h]
    by_cases h2 : (buildModuleIndex rm.tud).isEmpty
    · have h3 : buildModuleIndex rm.tud = [] := List.isEmpty_iff.mp h2
      simp [h2, h3]
    · simp [h2]
  · simp [if_neg h, h]

theorem scanImports_fst (n : Identifier) :
    ∀ (imps : List ImportEntry) (k : Nat),
    (scanImports imps n k).1 = firstImportHit imps n k := by
  intro imps
  induction imps with
  | nil => intro k; rfl
  | cons e rest ih =>
    intro k
    cases h : moduleLookup e.rm n with
    | some j =>
      simp [scanImports, firstImportHit, lookupValue_fst, h]
    | none =>
      simp [scanImports, firstImportHit, lookupValue_fst, h, ih]

theorem firstImportHit_none (n : Identifier) :
    ∀ (imps : List ImportEntry),
    (∀ k e, imps.get? k = some e → moduleLookup e.rm n = none) →
    ∀ k0, firstImportHit imps n k0 = none := by
  intro imps
  induction imps with
  | nil => intro _ k0; rfl
  | cons e rest ih =>
    intro h k0
    have h0 : moduleLookup e.rm n = none := h 0 e rfl
    have hrest : ∀ k e', rest.get? k = some e' → moduleLookup e'.rm n = none := by
      intro k e' hk
      exact h (k + 1) e' (by simpa using hk)
    simp [firstImportHit, h0, ih hrest]

theorem firstImportHit_of_hit (n : Identifier) :
    ∀ (imps : List ImportEntry) (k : Nat) (e : ImportEntry) (j : Nat),
    imps.get? k = some e → moduleLookup e.rm n = some j →
    (∀ k' e', k' < k → imps.get? k' = some e' → moduleLookup e'.rm n = none) →
    ∀ k0, firstImportHit imps n k0 = some (VDRef.imported (k0 + k) j) := by
  intro imps
  induction imps with
  | nil => intro k e j hk _ _ _; simp at hk
  | cons e0 rest ih =>
    intro k e j hk hj hbefore k0
    cases k with
    | zero =>
      obtain rfl : e0 = e := by simpa using hk
      simp [firstImportHit, hj]
    | succ k' =>
      have h0 : moduleLookup e0.rm n = none :=
        hbefore 0 e0 (Nat.succ_pos k') rfl
      have hk' : rest.get? k' = some e := by simpa using hk
      have hbefore' : ∀ k'' e', k'' < k' → rest.get? k'' = some e' →
          moduleLookup e'.rm n = none := by
        intro k'' e' hlt hk''
        exact hbefore (k'' + 1) e' (by omega) (by simpa using hk'')
      have harith : k0 + 1 + k' = k0 + (k' + 1) := by omega
      have := ih k' e j hk' hj hbefore' (k0 + 1)
      rw [firstImportHit, h0, this, harith]

end NameBinding

/-!
Claim theorems.
-/

namespace NameBinding

/-- C1: during the rewrite phase, `bindValueName` first consults the local
symbol table and, on a hit, returns a reference to that local declaration
(locals shadow imports); only when the name is absent locally does it scan
the import list front-to-back, and the first import whose module-index lookup
is non-empty determines the returned reference. -/
theorem bindValueName_resolution_precedence (b : NameBinder) (n : Identifier)
    (l : SMLoc) :
    (∀ i, lookupMap b.topLevelValues n = some i →
       (b.bindValueName n l).1 = some (Expr.declRef (VDRef.unitDecl i) l)) ∧
    (lookupMap b.topLevelValues n = none →
       ∀ k e j, b.imports.get? k = some e → moduleLookup e.rm n = some j →
         (∀ k' e', k' < k → b.imports.get? k' = some e' →
            moduleLookup e'.rm n = none) →
         (b.bindValueName n l).1 = some (Expr.declRef (VDRef.imported k j) l)) := by
  constructor
  · intro i hi
    simp [NameBinder.bindValueName, hi]
  · intro hn k e j hk hj hbefore
    have hhit := firstImportHit_of_hit n b.imports k e j hk hj hbefore 0
    have hscan : (scanImports b.imports n 0).1 = some (VDRef.imported k j) := by
      rw [scanImports_fst]
      simpa using hhit
    simp [NameBinder.bindValueName, hn, hscan]

theorem bindValueName_resolution_precedence_witness :
    (binderLocal.bindValueName "x" 5).1 =
      some (Expr.declRef (VDRef.unitDecl 0) 5) ∧
    (binderImports.bindValueName "helper" 6).1 =
      some (Expr.declRef (VDRef.imported 1 0) 6) := by
  constructor
  · exact (bindValueName_resolution_precedence binderLocal "x" 5).1 0 (by decide)
  · refine (bindValueName_resolution_precedence binderImports "helper" 6).2
      (by decide) 1 entryLib 0 (by decide) (by decide) ?_
    intro k' e' hlt hk'
    have hk0 : k' = 0 := by omega
    subst hk0
    have he : e' = entryX := by
      have : binderImports.imports.get? 0 = some entryX := by decide
      rw [this] at hk'
      exact (Option.some.injEq _ _).mp hk'.symm
    subst he
    decide

/-- C4: within one scope (the unit's own symbol table, or one imported
module's index), when several top-level value declarations share a non-empty
name, lookup finds the one appearing last in declaration order. -/
theorem lookup_finds_last_declaration (tud : TranslationUnit) (env : ModuleEnv)
    (n : Identifier) (i : Nat) (d : Option Expr)
    (hi : tud.get? i = some (Decl.value n d)) (hn : n ≠ "")
    (hlast : ∀ j d', i < j → tud.get? j ≠ some (Decl.value n d')) :
    lookupMap (buildModuleIndex tud) n = some i ∧
    lookupMap (prepass tud env).topLevelValues n = some i := by
  have hL := lastNamedIndex_of_last tud n i d hi hn hlast
  have hbuild : lookupMap (buildModuleIndex tud) n = some i := by
    rw [lookupMap_buildModuleIndex, hL]
  refine ⟨hbuild, ?_⟩
  rw [prepass, prepassAux_topLevelValues]
  exact hbuild

theorem lookup_finds_last_declaration_witness :
    lookupMap (buildModuleIndex [Decl.value "a" none, Decl.value "a" none]) "a"
      = some 1 ∧
    lookupMap
      (prepass [Decl.value "a" none, Decl.value "a" none] envNone).topLevelValues
      "a" = some 1 := by
  refine lookup_finds_last_declaration
    [Decl.value "a" none, Decl.value "a" none] envNone "a" 1 none
    (by decide) (by decide) ?_
  intro j d' hj hcontra
  have hnone : ([Decl.value "a" none, Decl.value "a" none].get? j : Option Decl)
      = none := by
    apply List.get?_eq_none.mpr
    simpa using hj
  rw [hnone] at hcontra
  cases hcontra

/-- C6: a module index is built on the first lookup by scanning the wrapped
unit once; the resulting state is a fixpoint, so every later lookup returns
the same answer with no further state change; lookup never fails, and a name
declared nowhere in the module yields an empty result. -/
theorem moduleIndex_lookup_cached (tud : TranslationUnit) (n : Identifier) :
    (({ tud := tud, topLevelValues := [] } : ReferencedModule).lookupValue n).1
      = lookupMap (buildModuleIndex tud) n ∧
    (({ tud := tud, topLevelValues := [] } : ReferencedModule).lookupValue n).2
      = { tud := tud, topLevelValues := buildModuleIndex tud } ∧
    (∀ n',
      ((({ tud := tud, topLevelValues := [] } : ReferencedModule).lookupValue
          n).2.lookupValue n')
        = (lookupMap (buildModuleIndex tud) n',
           (({ tud := tud, topLevelValues := [] } :
              ReferencedModule).lookupValue n).2)) ∧
    ((∀ j d, tud.get? j ≠ some (Decl.value n d)) →
      (({ tud := tud, topLevelValues := [] } :
          ReferencedModule).lookupValue n).1 = none) := by
  have hfst :
      (({ tud := tud, topLevelValues := [] } :
          ReferencedModule).lookupValue n).1
        = lookupMap (buildModuleIndex tud) n := by
    rw [lookupValue_fst]
    simp [moduleLookup]
  have hsnd :
      (({ tud := tud, topLevelValues := [] } :
          ReferencedModule).lookupValue n).2
        = { tud := tud, topLevelValues := buildModuleIndex tud } := by
    rw [lookupValue_snd]
    simp
  refine ⟨hfst, hsnd, ?_, ?_⟩
  · intro n'
    have h1 : ((({ tud := tud, topLevelValues := [] } :
        ReferencedModule).lookupValue n).2.lookupValue n').1
          = lookupMap (buildModuleIndex tud) n' := by
      rw [lookupValue_fst, moduleLookup_lookupValue_snd]
      simp [moduleLookup]
    have h2 := lookupValue_snd_idem
      ({ tud := tud, topLevelValues := [] } : ReferencedModule) n n'
    exact Prod.ext h1 h2
  · intro hnone
    rw [hfst, lookupMap_buildModuleIndex]
    cases hA : lastNamedIndex tud n with
    | none => rfl
    | some j =>
      obtain ⟨_, d', hd'⟩ := lastNamedIndex_spec tud n j hA
      exact absurd hd' (hnone j d')

theorem moduleIndex_lookup_cached_witness :
    (({ tud := [Decl.other], topLevelValues := [] } :
        ReferencedModule).lookupValue "ghost").1 = none ∧
    (({ tud := modLib, topLevelValues := [] } :
        ReferencedModule).lookupValue "helper").1
      = lookupMap (buildModuleIndex modLib) "helper" := by
  constructor
  · refine (moduleIndex_lookup_cached [Decl.other] "ghost").2.2.2 ?_
    intro j d h
    cases j with
    | zero => simp at h
    | succ j' => simp at h
  · exact (moduleIndex_lookup_cached modLib "helper").1

/-- C3: when a name is found neither locally nor in any imported module,
resolution emits exactly one error diagnostic reading
`use of unresolved identifier '<name>'` at the reference's location, sets the
shared had-error flag, yields a null result at that tree position, and the
walk proceeds with the remaining expressions. -/
theorem bindValueName_unresolved_error (b : NameBinder) (n : Identifier)
    (l : SMLoc)
    (hlocal : lookupMap b.topLevelValues n = none)
    (himp : ∀ k e, b.imports.get? k = some e → moduleLookup e.rm n = none) :
    (b.bindValueName n l).1 = none ∧
    ((b.bindValueName n l).2).diags
      = b.diags ++
        [⟨l, "use of unresolved identifier \x27" ++ n ++ "\x27",
          Severity.error⟩] ∧
    ((b.bindValueName n l).2).hadError = true ∧
    (∀ es, (walkBindExprs (Expr.unresolved n l :: es) b).1
        = Expr.hole :: (walkBindExprs es ((b.bindValueName n l).2)).1) ∧
    (∀ (name : Identifier) (rest : TranslationUnit),
       rewritePass (Decl.value name (some (Expr.unresolved n l)) :: rest) b
         = (Decl.value name none
              :: (rewritePass rest ((b.bindValueName n l).2)).1,
            (rewritePass rest ((b.bindValueName n l).2)).2)) := by
  have hscan : (scanImports b.imports n 0).1 = none := by
    rw [scanImports_fst]
    exact firstImportHit_none n b.imports himp 0
  have hres : (b.bindValueName n l).1 = none := by
    simp [NameBinder.bindValueName, hlocal, hscan]
  refine ⟨hres, ?_, ?_, ?_, ?_⟩
  · simp [NameBinder.bindValueName, hlocal, hscan, NameBinder.error]
  · simp [NameBinder.bindValueName, hlocal, hscan, NameBinder.error]
  · intro es
    simp [walkBindExprs, walkBindExpr, hres]
  · intro name rest
    have hw : walkBindExpr (Expr.unresolved n l) b = b.bindValueName n l := rfl
    simp [rewritePass, hw, hres]

theorem bindValueName_unresolved_error_witness :
    (binderImports.bindValueName "ghost" 9).1 = none ∧
    ((binderImports.bindValueName "ghost" 9).2).diags
      = [⟨9, "use of unresolved identifier \x27ghost\x27", Severity.error⟩] ∧
    ((binderImports.bindValueName "ghost" 9).2).hadError = true := by
  have h := bindValueName_unresolved_error binderImports "ghost" 9 (by decide) ?_
  · exact ⟨h.1, by simpa [binderImports] using h.2.1, h.2.2.1⟩
  · intro k e hk
    cases k with
    | zero =>
      have he : e = entryX := by
        have h0 : binderImports.imports.get? 0 = some entryX := by decide
        rw [h0] at hk
        exact (Option.some.injEq _ _).mp hk.symm
      subst he; decide
    | succ k' =>
      cases k' with
      | zero =>
        have he : e = entryLib := by
          have h1 : binderImports.imports.get? 1 = some entryLib := by decide
          rw [h1] at hk
          exact (Option.some.injEq _ _).mp hk.symm
        subst he; decide
      | succ k'' => simp [binderImports] at hk

end NameBinding

namespace NameBinding

mutual
theorem walkBindExpr_no_unresolved :
    ∀ (e : Expr) (b : NameBinder), Expr.hasUnresolved e = false →
    walkBindExpr e b = (some e, b)
  | Expr.unresolved n l, b => by
      intro h; simp [Expr.hasUnresolved] at h
  | Expr.declRef d l, b => fun _ => rfl
  | Expr.hole, b => fun _ => rfl
  | Expr.node k cs, b => by
      intro h
      have h' : Expr.hasUnresolvedList cs = false := by
        simpa [Expr.hasUnresolved] using h
      have hcs := walkBindExprs_no_unresolved cs b h'
      simp [walkBindExpr, hcs]

theorem walkBindExprs_no_unresolved :
    ∀ (es : List Expr) (b : NameBinder), Expr.hasUnresolvedList es = false →
    walkBindExprs es b = (es, b)
  | [], b => fun _ => rfl
  | e :: rest, b => by
      intro h
      rw [Expr.hasUnresolvedList, Bool.or_eq_false_iff] at h
      have he := walkBindExpr_no_unresolved e b h.1
      have hr := walkBindExprs_no_unresolved rest b h.2
      simp [walkBindExprs, he, hr]
end

/-- C7: the rewriter walks each initializer tree and replaces exactly the
unresolved-reference nodes: an unresolved node becomes `bindValueName`'s
result, an expression containing no unresolved node passes through with the
binder untouched, a compound node is rebuilt from its walked children, and
the rewritten expression is stored back as the declaration's initializer. -/
theorem rewriter_replaces_exactly_unresolved (b : NameBinder) :
    (∀ n l, walkBindExpr (Expr.unresolved n l) b = b.bindValueName n l) ∧
    (∀ e, Expr.hasUnresolved e = false → walkBindExpr e b = (some e, b)) ∧
    (∀ k cs, walkBindExpr (Expr.node k cs) b
       = (some (Expr.node k (walkBindExprs cs b).1), (walkBindExprs cs b).2)) ∧
    (∀ name e rest,
       rewritePass (Decl.value name (some e) :: rest) b
         = (Decl.value name ((walkBindExpr e b).1)
              :: (rewritePass rest ((walkBindExpr e b).2)).1,
            (rewritePass rest ((walkBindExpr e b).2)).2)) := by
  refine ⟨fun n l => rfl, ?_, fun k cs => rfl, fun name e rest => rfl⟩
  exact fun e h => walkBindExpr_no_unresolved e b h

theorem rewriter_replaces_exactly_unresolved_witness :
    walkBindExpr
        (Expr.node 1 [Expr.declRef (VDRef.unitDecl 0) 2, Expr.hole])
        binderLocal
      = (some (Expr.node 1 [Expr.declRef (VDRef.unitDecl 0) 2, Expr.hole]),
         binderLocal) :=
  (rewriter_replaces_exactly_unresolved binderLocal).2.1
    (Expr.node 1 [Expr.declRef (VDRef.unitDecl 0) 2, Expr.hole]) (by decide)

/-- C5: when reading the artifact of an imported module fails, exactly one
error diagnostic carrying the I/O failure reason is emitted at the import
statement's location, the flag is set, the import list and the loaded-module
count are untouched (the import contributes no symbols), and a later
valid import is processed exactly as it would have been. -/
theorem addImport_load_failure (b : NameBinder) (mid : Identifier) (l : SMLoc)
    (env : ModuleEnv) (msg : String)
    (h : env (mid ++ ".swift") = ParseOutcome.ioError msg) :
    b.addImport mid l env =
      { b with
        hadError := true
        diags := b.diags ++
          [⟨l, "opening import file \x27" ++ (mid ++ ".swift") ++ "\x27: " ++ msg,
            Severity.error⟩] } ∧
    (∀ (m2 : Identifier) (l2 : SMLoc) (ds : TranslationUnit) (i : Nat),
       env (m2 ++ ".swift") = ParseOutcome.ok ds →
       prepassAux env [Decl.imp mid l, Decl.imp m2 l2] i b =
         { b with
           hadError := true
           diags := b.diags ++
             [⟨l, "opening import file \x27" ++ (mid ++ ".swift") ++ "\x27: "
                 ++ msg, Severity.error⟩]
           imports := b.imports ++ [⟨m2, l2, ⟨ds, []⟩⟩]
           loadedModules := b.loadedModules + 1 }) := by
  have h1 : b.addImport mid l env =
      { b with
        hadError := true
        diags := b.diags ++
          [⟨l, "opening import file \x27" ++ (mid ++ ".swift") ++ "\x27: " ++ msg,
            Severity.error⟩] } := by
    simp [NameBinder.addImport, NameBinder.getReferencedModule, h,
          NameBinder.error]
  refine ⟨h1, ?_⟩
  intro m2 l2 ds i h2
  simp only [prepassAux, h1]
  simp [NameBinder.addImport, NameBinder.getReferencedModule, h2]

theorem addImport_load_failure_witness :
    NameBinder.init.addImport "Ghost" 4 envNone =
      { NameBinder.init with
        hadError := true
        diags :=
          [⟨4, "opening import file \x27Ghost.swift\x27: no such file",
            Severity.error⟩] } :=
  (addImport_load_failure NameBinder.init "Ghost" 4 envNone "no such file"
    rfl).1

/-- C9: every import statement triggers its own load: the artifact name is
the module identifier plus the `.swift` extension, a successful load wraps
the freshly parsed unit in a new module index with an unbuilt cache, and
two imports naming the same module each produce their own parse (loaded-module
count grows by two) and their own entry in the import list. -/
theorem imports_loaded_independently (b : NameBinder) (mid : Identifier)
    (l : SMLoc) (env : ModuleEnv) (ds : TranslationUnit)
    (h : env (mid ++ ".swift") = ParseOutcome.ok ds) :
    b.getReferencedModule l mid env =
      (some ⟨ds, []⟩, { b with loadedModules := b.loadedModules + 1 }) ∧
    (∀ (l2 : SMLoc) (i : Nat),
       prepassAux env [Decl.imp mid l, Decl.imp mid l2] i b =
         { b with
           imports := b.imports ++ [⟨mid, l, ⟨ds, []⟩⟩, ⟨mid, l2, ⟨ds, []⟩⟩]
           loadedModules := b.loadedModules + 2 }) := by
  have h1 : b.getReferencedModule l mid env =
      (some ⟨ds, []⟩, { b with loadedModules := b.loadedModules + 1 }) := by
    simp [NameBinder.getReferencedModule, h]
  refine ⟨h1, ?_⟩
  intro l2 i
  simp [prepassAux, NameBinder.addImport, NameBinder.getReferencedModule, h]

theorem imports_loaded_independently_witness :
    prepassAux
        (fun s => if s = "Lib.swift" then ParseOutcome.ok modLib
                  else ParseOutcome.ioError "no such file")
        [Decl.imp "Lib" 1, Decl.imp "Lib" 2] 0 NameBinder.init =
      { NameBinder.init with
        imports := [⟨"Lib", 1, ⟨modLib, []⟩⟩, ⟨"Lib", 2, ⟨modLib, []⟩⟩]
        loadedModules := 2 } :=
  (imports_loaded_independently NameBinder.init "Lib" 1
      (fun s => if s = "Lib.swift" then ParseOutcome.ok modLib
                else ParseOutcome.ioError "no such file")
      modLib (by decide)).2 2 0

/-- C10: a top-level value declaration with an empty name is never registered
in the symbol table (the prepass skips it), yet its initializer is rewritten
by the second pass exactly like a named declaration's; in a unit binding `a`
locally, an anonymous declaration's initializer referencing `a` resolves. -/
theorem anonymous_decl_excluded_but_rewritten :
    (∀ (env : ModuleEnv) (init : Option Expr) (rest : TranslationUnit)
       (i : Nat) (b : NameBinder),
       prepassAux env (Decl.value "" init :: rest) i b
         = prepassAux env rest (i + 1) b) ∧
    (∀ (e : Expr) (rest : TranslationUnit) (b : NameBinder),
       rewritePass (Decl.value "" (some e) :: rest) b
         = (Decl.value "" ((walkBindExpr e b).1)
              :: (rewritePass rest ((walkBindExpr e b).2)).1,
            (rewritePass rest ((walkBindExpr e b).2)).2)) ∧
    performNameBinding
        [Decl.value "a" none, Decl.value "" (some (Expr.unresolved "a" 7))]
        envNone
      = ([Decl.value "a" none,
          Decl.value "" (some (Expr.declRef (VDRef.unitDecl 0) 7))],
         { topLevelValues := [("a", 0)], imports := [], loadedModules := 0
           diags := [], hadError := false }) := by
  refine ⟨?_, fun e rest b => rfl, by decide⟩
  intro env init rest i b
  simp [prepassAux]

end NameBinding

namespace NameBinding

theorem bindValueName_local_hit (b : NameBinder) (n : Identifier) (l : SMLoc)
    (i : Nat) (h : lookupMap b.topLevelValues n = some i) :
    b.bindValueName n l = (some (Expr.declRef (VDRef.unitDecl i) l), b) := by
  simp [NameBinder.bindValueName, h]

theorem rewritePass_get (tud : TranslationUnit) :
    ∀ (b : NameBinder) (p : Nat) (name : Identifier) (e : Expr),
    tud.get? p = some (Decl.value name (some e)) →
    ∃ b' : NameBinder,
      (rewritePass tud b).1.get? p
        = some (Decl.value name ((walkBindExpr e b').1)) ∧
      b'.topLevelValues = b.topLevelValues := by
  induction tud with
  | nil => intro b p name e h; simp at h
  | cons d rest ih =>
    intro b p name e h
    cases p with
    | zero =>
      obtain rfl : d = Decl.value name (some e) := by simpa using h
      exact ⟨b, by simp [rewritePass], rfl⟩
    | succ p' =>
      have h' : rest.get? p' = some (Decl.value name (some e)) := by
        simpa using h
      cases d with
      | value nm init =>
        cases init with
        | none =>
          obtain ⟨b', hb1, hb2⟩ := ih b p' name e h'
          exact ⟨b', by simpa [rewritePass] using hb1, hb2⟩
        | some e0 =>
          obtain ⟨b', hb1, hb2⟩ := ih ((walkBindExpr e0 b).2) p' name e h'
          exact ⟨b', by simpa [rewritePass] using hb1,
                 hb2.trans (walkBindExpr_topLevelValues e0 b)⟩
      | imp mn ml =>
        obtain ⟨b', hb1, hb2⟩ := ih b p' name e h'
        exact ⟨b', by simpa [rewritePass] using hb1, hb2⟩
      | other =>
        obtain ⟨b', hb1, hb2⟩ := ih b p' name e h'
        exact ⟨b', by simpa [rewritePass] using hb1, hb2⟩

/-- C2: the prepass fully populates the local symbol table before any
resolution happens, so a reference to the unit's unique declaration of a name
resolves to that declaration no matter where the declaration stands relative
to the referencing initializer (forward references behave exactly like
backward ones). -/
theorem forward_references_resolve (tud : TranslationUnit) (env : ModuleEnv)
    (p q : Nat) (n m : Identifier) (d : Option Expr) (l : SMLoc)
    (hq : tud.get? q = some (Decl.value n d)) (hn : n ≠ "")
    (huniq : ∀ j d', tud.get? j = some (Decl.value n d') → j = q)
    (hp : tud.get? p = some (Decl.value m (some (Expr.unresolved n l)))) :
    (performNameBinding tud env).1.get? p
      = some (Decl.value m (some (Expr.declRef (VDRef.unitDecl q) l))) := by
  have hlast : ∀ j d', q < j → tud.get? j ≠ some (Decl.value n d') := by
    intro j d' hj hcontra
    have := huniq j d' hcontra
    omega
  have hL := lastNamedIndex_of_last tud n q d hq hn hlast
  have htable : lookupMap (prepass tud env).topLevelValues n = some q := by
    rw [prepass, prepassAux_topLevelValues]
    show lookupMap (buildModuleIndexAux tud 0 []) n = some q
    rw [show buildModuleIndexAux tud 0 [] = buildModuleIndex tud from rfl,
        lookupMap_buildModuleIndex, hL]
  obtain ⟨b', hb1, hb2⟩ :=
    rewritePass_get tud (prepass tud env) p m (Expr.unresolved n l) hp
  have hloc : lookupMap b'.topLevelValues n = some q := by
    rw [hb2]; exact htable
  have hwalk : (walkBindExpr (Expr.unresolved n l) b').1
      = some (Expr.declRef (VDRef.unitDecl q) l) := by
    show (b'.bindValueName n l).1 = _
    rw [bindValueName_local_hit b' n l q hloc]
  show (rewritePass tud (prepass tud env)).1.get? p = _
  rw [hb1, hwalk]

theorem forward_references_resolve_witness :
    (performNameBinding
        [Decl.value "b" (some (Expr.unresolved "a" 1)), Decl.value "a" none]
        envNone).1.get? 0
      = some (Decl.value "b" (some (Expr.declRef (VDRef.unitDecl 1) 1))) := by
  refine forward_references_resolve
    [Decl.value "b" (some (Expr.unresolved "a" 1)), Decl.value "a" none]
    envNone 0 1 "a" "b" none 1 (by decide) (by decide) ?_ (by decide)
  intro j d' h
  match j with
  | 1 => rfl
  | 0 => simp at h
  | j' + 2 => simp at h

end NameBinding

namespace NameBinding

theorem keysNonEmpty_buildModuleIndexAux :
    ∀ (tud : TranslationUnit) (i : Nat) (m : SymMap Nat),
    keysNonEmpty m → keysNonEmpty (buildModuleIndexAux tud i m) := by
  intro tud
  induction tud with
  | nil => intro i m hm; simpa [buildModuleIndexAux] using hm
  | cons d rest ih =>
    intro i m hm
    cases d with
    | value name init =>
      by_cases hn : name = ""
      · subst hn; simpa [buildModuleIndexAux] using ih (i + 1) m hm
      · have hm' : keysNonEmpty (insertMap m name i) := by
          intro p hp
          rcases List.mem_cons.mp hp with h | h
          · subst h; exact hn
          · exact hm p h
        simpa [buildModuleIndexAux, hn] using ih (i + 1) _ hm'
    | imp mn ml => simpa [buildModuleIndexAux] using ih (i + 1) m hm
    | other => simpa [buildModuleIndexAux] using ih (i + 1) m hm

theorem keysNonEmpty_buildModuleIndex (tud : TranslationUnit) :
    keysNonEmpty (buildModuleIndex tud) :=
  keysNonEmpty_buildModuleIndexAux tud 0 [] (by simp [keysNonEmpty])

theorem scanImports_entries_wf (n : Identifier) :
    ∀ (imps : List ImportEntry) (k : Nat),
    (∀ e ∈ imps, keysNonEmpty e.rm.topLevelValues) →
    ∀ e ∈ (scanImports imps n k).2, keysNonEmpty e.rm.topLevelValues := by
  intro imps
  induction imps with
  | nil => intro k _ e he; simp [scanImports] at he
  | cons e0 rest ih =>
    intro k h e he
    have he0' : keysNonEmpty ((e0.rm.lookupValue n).2).topLevelValues := by
      rw [lookupValue_snd]
      by_cases hc : e0.rm.topLevelValues.isEmpty
      · simpa [hc] using keysNonEmpty_buildModuleIndex e0.rm.tud
      · simpa [hc] using h e0 (by simp)
    have hrest : ∀ e' ∈ rest, keysNonEmpty e'.rm.topLevelValues := by
      intro e' he'; exact h e' (List.mem_cons_of_mem _ he')
    cases hl : (e0.rm.lookupValue n).1 with
    | some j =>
      simp only [scanImports, hl] at he
      rcases List.mem_cons.mp he with rfl | hmem
      · exact he0'
      · exact hrest e hmem
    | none =>
      simp only [scanImports, hl] at he
      rcases List.mem_cons.mp he with rfl | hmem
      · exact he0'
      · exact ih (k + 1) hrest e hmem

theorem bindValueName_wf (b : NameBinder) (n : Identifier) (l : SMLoc)
    (hb : binderTablesWF b) : binderTablesWF ((b.bindValueName n l).2) := by
  obtain ⟨h1, h2⟩ := hb
  have hscan := scanImports_entries_wf n b.imports 0 h2
  cases hloc : lookupMap b.topLevelValues n with
  | some i =>
    simp only [NameBinder.bindValueName, hloc]
    exact ⟨h1, h2⟩
  | none =>
    cases hs : (scanImports b.imports n 0).1 with
    | some d =>
      simp only [NameBinder.bindValueName, hloc, hs]
      exact ⟨h1, hscan⟩
    | none =>
      simp only [NameBinder.bindValueName, hloc, hs, NameBinder.error]
      exact ⟨h1, hscan⟩

mutual
theorem walkBindExpr_wf :
    ∀ (e : Expr) (b : NameBinder), binderTablesWF b →
    binderTablesWF ((walkBindExpr e b).2)
  | Expr.unresolved n l, b => bindValueName_wf b n l
  | Expr.declRef _ _, _ => fun hb => hb
  | Expr.hole, _ => fun hb => hb
  | Expr.node _ cs, b => walkBindExprs_wf cs b

theorem walkBindExprs_wf :
    ∀ (es : List Expr) (b : NameBinder), binderTablesWF b →
    binderTablesWF ((walkBindExprs es b).2)
  | [], _ => fun hb => hb
  | e :: rest, b => fun hb =>
      walkBindExprs_wf rest ((walkBindExpr e b).2) (walkBindExpr_wf e b hb)
end

theorem rewritePass_wf (tud : TranslationUnit) :
    ∀ b : NameBinder, binderTablesWF b →
    binderTablesWF ((rewritePass tud b).2) := by
  induction tud with
  | nil => intro b hb; exact hb
  | cons d rest ih =>
    intro b hb
    cases d with
    | value name init =>
      cases init with
      | none => simpa [rewritePass] using ih b hb
      | some e =>
        simp only [rewritePass]
        exact ih _ (walkBindExpr_wf e b hb)
    | imp mn ml => simpa [rewritePass] using ih b hb
    | other => simpa [rewritePass] using ih b hb

theorem addImport_wf (b : NameBinder) (mid : Identifier) (l : SMLoc)
    (env : ModuleEnv) (hb : binderTablesWF b) :
    binderTablesWF (b.addImport mid l env) := by
  obtain ⟨h1, h2⟩ := hb
  cases h : env (mid ++ ".swift") with
  | ioError msg =>
    simp only [NameBinder.addImport, NameBinder.getReferencedModule, h,
               NameBinder.error]
    exact ⟨h1, h2⟩
  | parseFail =>
    simp only [NameBinder.addImport, NameBinder.getReferencedModule, h]
    exact ⟨h1, h2⟩
  | ok ds =>
    simp only [NameBinder.addImport, NameBinder.getReferencedModule, h]
    refine ⟨h1, ?_⟩
    intro e he
    rcases List.mem_append.mp he with hmem | hmem
    · exact h2 e hmem
    · have : e = (⟨mid, l, ⟨ds, []⟩⟩ : ImportEntry) := by simpa using hmem
      subst this
      simp [keysNonEmpty]

theorem prepassAux_wf (env : ModuleEnv) :
    ∀ (tud : TranslationUnit) (i : Nat) (b : NameBinder),
    binderTablesWF b → binderTablesWF (prepassAux env tud i b) := by
  intro tud
  induction tud with
  | nil => intro i b hb; exact hb
  | cons d rest ih =>
    intro i b hb
    cases d with
    | value name init =>
      by_cases hn : name = ""
      · subst hn; simpa [prepassAux] using ih (i + 1) b hb
      · have hb' : binderTablesWF (b.addNamedTopLevelDecl name i) := by
          refine ⟨?_, hb.2⟩
          intro p hp
          rcases List.mem_cons.mp hp with h | h
          · subst h; exact hn
          · exact hb.1 p h
        simpa [prepassAux, hn] using ih (i + 1) _ hb'
    | imp mn ml =>
      simpa [prepassAux] using ih (i + 1) _ (addImport_wf b mn ml env hb)
    | other => simpa [prepassAux] using ih (i + 1) b hb

/-- C8: registration into the local symbol table is guarded by the name being
non-empty, so after the prepass — and still after the whole binding pass,
including every lazily built module-index cache — every key of every symbol
table is a non-empty identifier. -/
theorem symbol_table_keys_nonempty (tud : TranslationUnit) (env : ModuleEnv) :
    (∀ (init : Option Expr) (rest : TranslationUnit) (i : Nat)
       (b : NameBinder),
       (prepassAux env (Decl.value "" init :: rest) i b).topLevelValues
         = (prepassAux env rest (i + 1) b).topLevelValues) ∧
    binderTablesWF (prepass tud env) ∧
    binderTablesWF ((performNameBinding tud env).2) := by
  have hpre : binderTablesWF (prepass tud env) :=
    prepassAux_wf env tud 0 NameBinder.init
      ⟨by simp [NameBinder.init, keysNonEmpty], by simp [NameBinder.init]⟩
  refine ⟨?_, hpre, rewritePass_wf tud _ hpre⟩
  intro init rest i b
  simp [prepassAux]

theorem symbol_table_keys_nonempty_witness :
    (("a", 0) : Identifier × Nat).1 ≠ "" :=
  (symbol_table_keys_nonempty [Decl.value "a" none] envNone).2.1.1
    ("a", 0) (by decide)

end NameBinding
